import Mathlib

set_option maxHeartbeats 1000000

/-!
Verification development for the llm repository: shallow embeddings of the
chat-template tagging helpers (common/chaton.hpp), the server result model
(examples/server/server.hpp) and the scheduler/sampler subsystem described by
the specification, together with theorems settling the specification claims.
-/

/--
Embedding of the chat-message part accumulator class ChatParts from
common/chaton.hpp: a vector of string parts together with one type character
per part (the types string).
-/
structure ChatParts where
  parts : List String
  types : List Char
deriving Repr, DecidableEq

/-- ChatParts::S, tag for strings whose special tokens are processed. -/
def ChatParts.S : Char := 's'

/-- ChatParts::N, tag for strings without special token processing. -/
def ChatParts.N : Char := 'n'

/-- ChatParts::X, tag for the no-string condition. -/
def ChatParts.X : Char := '?'

/-- The freshly constructed ChatParts: empty parts vector, empty types string. -/
def ChatParts.emptyCP : ChatParts := ⟨[], []⟩

/-- ChatParts::last_type: the last type character, or X when none was added. -/
def ChatParts.last_type (cp : ChatParts) : Char :=
  match cp.types.getLast? with
  | none => ChatParts.X
  | some c => c

/--
ChatParts::add_part: when the new part has the same type as the last one it is
appended onto the last stored part, otherwise a new part and type are pushed.
The merge branch of the source indexes the element at position size-1 of the
parts vector, which is out of bounds when the vector is empty; that execution
has no defined result and is modelled as none.
-/
def ChatParts.add_part (cp : ChatParts) (ty : Char) (part : String) : Option ChatParts :=
  if cp.last_type = ty then
    match cp.parts.getLast? with
    | none => none
    | some lastPart => some ⟨cp.parts.dropLast ++ [lastPart ++ part], cp.types⟩
  else
    some ⟨cp.parts ++ [part], cp.types ++ [ty]⟩

/-- ChatParts::str: concatenation of all stored parts. -/
def ChatParts.str (cp : ChatParts) : String :=
  cp.parts.foldl (fun a b => a ++ b) ""

/-- ChatParts::get_partstypes: the types string. -/
def ChatParts.get_partstypes (cp : ChatParts) : List Char :=
  cp.types

/-- ChatParts::get_partslens: the length of each stored part. -/
def ChatParts.get_partslens (cp : ChatParts) : List Nat :=
  cp.parts.map String.length

/-- Run a sequence of add_part calls on an initially empty ChatParts. -/
def ChatParts.run (calls : List (Char × String)) : Option ChatParts :=
  calls.foldlM (fun cp pc => cp.add_part pc.1 pc.2) ChatParts.emptyCP

/-- The structural invariant of ChatParts maintained by add_part. -/
def ChatParts.Inv (cp : ChatParts) : Prop :=
  cp.parts.length = cp.types.length ∧ cp.types.Chain' (fun a b => a ≠ b)

/-- A chat message, as in llama_chat_message: a role and a content string. -/
structure ChatMessage where
  role : String
  content : String
deriving Repr, DecidableEq

/--
The per-template data read by ChatTemplates::chaton_tmpl_apply_ex from
common/chaton.hpp: roleTag models tmpl_role_getkeys for one key (role, key
pairs such as "system"/"begin"), and the four booleans model tmpl_getkey on
the systemuser-system-has-suffix, systemuser-system-has-end,
systemuser-1st-user-has-begin and systemuser-1st-user-has-prefix flags.
-/
structure ChatTemplateData where
  roleTag : String → String → String
  sysHasSuffix : Bool
  sysHasEnd : Bool
  userHasBegin : Bool
  userHasPref : Bool

/--
The add_part calls issued by the loop body of chaton_tmpl_apply_ex for one
message, given the system/user message counters already incremented for this
message (the source increments cntSystem/cntUser before the comparisons).
-/
def chaton_msg_parts (t : ChatTemplateData) (role content : String)
    (cntSystem cntUser : Nat) : List (Char × String) :=
  let b := t.roleTag role "begin"
  let p := t.roleTag role "prefix"
  let s := t.roleTag role "suffix"
  let e := t.roleTag role "end"
  let pre :=
    if role = "system" then
      [(ChatParts.S, b), (ChatParts.S, p)]
    else if role = "user" then
      if cntSystem = 1 ∧ cntUser = 1 then
        (if t.userHasBegin then [(ChatParts.S, b)] else [])
          ++ (if t.userHasPref then [(ChatParts.S, p)] else [])
      else
        [(ChatParts.S, b), (ChatParts.S, p)]
    else
      [(ChatParts.S, b), (ChatParts.S, p)]
  let post :=
    if role = "system" then
      if cntSystem = 1 then
        (if t.sysHasSuffix then [(ChatParts.S, s)] else [])
          ++ (if t.sysHasEnd then [(ChatParts.S, e)] else [])
      else
        [(ChatParts.S, s), (ChatParts.S, e)]
    else
      [(ChatParts.S, s), (ChatParts.S, e)]
  pre ++ [(ChatParts.N, content)] ++ post

/--
The message loop of chaton_tmpl_apply_ex: threads the cntSystem/cntUser
counters through the messages and collects each message's add_part calls.
-/
def chaton_msgs_parts (t : ChatTemplateData) :
    List ChatMessage → Nat → Nat → List (List (Char × String))
  | [], _, _ => []
  | m :: ms, cntSystem, cntUser =>
    let cs := if m.role = "system" then cntSystem + 1 else cntSystem
    let cu := if m.role = "user" then cntUser + 1 else cntUser
    chaton_msg_parts t m.role m.content cs cu :: chaton_msgs_parts t ms cs cu

/--
ChatTemplates::chaton_tmpl_apply_ex: global begin, the tagged messages, the
optional assistant begin+prefix alert and the global end, accumulated through
ChatParts; returns the tagged string, the parts types and the parts lengths.
-/
def chaton_tmpl_apply_ex (t : ChatTemplateData) (msgs : List ChatMessage)
    (alertAssistantAtEnd applyGlobalIfAny : Bool)
    (curSystemMsgCnt curUserMsgCnt : Nat) :
    Option (String × List Char × List Nat) :=
  let calls :=
    (if applyGlobalIfAny then [(ChatParts.S, t.roleTag "global" "begin")] else [])
      ++ (chaton_msgs_parts t msgs curSystemMsgCnt curUserMsgCnt).flatten
      ++ (if alertAssistantAtEnd then
            [(ChatParts.S, t.roleTag "assistant" "begin" ++ t.roleTag "assistant" "prefix")]
          else [])
      ++ (if applyGlobalIfAny then [(ChatParts.S, t.roleTag "global" "end")] else [])
  match ChatParts.run calls with
  | none => none
  | some cp => some (cp.str, cp.get_partstypes, cp.get_partslens)

/-- Number of system messages in a message list. -/
def cntSystemMsgs (msgs : List ChatMessage) : Nat :=
  msgs.countP (fun m => decide (m.role = "system"))

/-- Number of user messages in a message list. -/
def cntUserMsgs (msgs : List ChatMessage) : Nat :=
  msgs.countP (fun m => decide (m.role = "user"))

/--
The unconditional tagging of one message: begin, prefix, content, suffix, end,
with no flag consulted.
-/
def chaton_uncond_parts (t : ChatTemplateData) (role content : String) :
    List (Char × String) :=
  [(ChatParts.S, t.roleTag role "begin"), (ChatParts.S, t.roleTag role "prefix"),
   (ChatParts.N, content),
   (ChatParts.S, t.roleTag role "suffix"), (ChatParts.S, t.roleTag role "end")]

/--
chaton_llama_tokenize from common/chaton.hpp, with the external llama_tokenize
collaborator abstracted as a function from model handle, text and the
add_special/parse_special flags to the produced token sequence (the source's
buffer-resizing retry protocol terminates with exactly that sequence). A null
model pointer is modelled as none, for which the source returns the empty
token vector.
-/
def chaton_llama_tokenize {Model : Type}
    (llamaTokenizeExt : Model → String → Bool → Bool → List Int)
    (model : Option Model) (text : String)
    (add_special parse_special : Bool) : List Int :=
  match model with
  | none => []
  | some m => llamaTokenizeExt m text add_special parse_special

/-- The stop_type enum of examples/server/server.hpp. -/
inductive stop_type where
  | STOP_TYPE_NONE
  | STOP_TYPE_EOS
  | STOP_TYPE_WORD
  | STOP_TYPE_LIMIT
deriving Repr, DecidableEq

/--
The fields of server_task_result_cmpl_partial from examples/server/server.hpp
that its to_json_oai_compat serialization reads: the content delta, the number
of decoded tokens, the number of prompt tokens, the stop type, and the
timings prompt_n field used to decide whether a timings object is attached.
-/
structure CmplPartialResult where
  content : String
  n_decoded : Nat
  n_prompt_tokens : Nat
  stop : stop_type
  timings_prompt_n : Int
deriving Repr, DecidableEq

/--
One choice object inside an OAI-compatible streaming chunk: the finish_reason
value and the role/content fields of the delta object, absent fields as none.
-/
structure OaiChoice where
  finish_reason : Option String
  delta_role : Option String
  delta_content : Option String
deriving Repr, DecidableEq

/--
One element of the json vector returned by to_json_oai_compat: either the
bare empty json object, or a chat.completion.chunk object with one choice, a
flag for an attached timings object and a flag for an attached usage object.
-/
inductive OaiElem where
  | emptyObject
  | chunk (choice : OaiChoice) (hasTimings : Bool) (hasUsage : Bool)
deriving Repr, DecidableEq

/--
server_task_result_cmpl_partial::to_json_oai_compat from
examples/server/server.hpp (lines 383-472): computes first from n_decoded,
maps the stop type onto a finish_reason string, then emits either a finishing
chunk, a first-token role chunk (split into role chunk plus content chunk for
nonempty first content), the bare empty object for an empty non-first content
delta, or a plain content-delta chunk.
-/
def to_json_oai_compat (r : CmplPartialResult) : List OaiElem :=
  let first : Bool := r.n_decoded = 0
  let finish_reason : String :=
    if r.stop = stop_type.STOP_TYPE_WORD ∨ r.stop = stop_type.STOP_TYPE_EOS then
      "stop"
    else if r.stop = stop_type.STOP_TYPE_LIMIT then
      "length"
    else ""
  if finish_reason ≠ "" then
    [OaiElem.chunk ⟨some finish_reason, none, none⟩
      (decide (0 ≤ r.timings_prompt_n)) true]
  else if first then
    if r.content = "" then
      [OaiElem.chunk ⟨none, some "assistant", none⟩
        (decide (0 ≤ r.timings_prompt_n)) false]
    else
      [OaiElem.chunk ⟨none, some "assistant", none⟩ false false,
       OaiElem.chunk ⟨none, none, some r.content⟩ false false]
  else if r.content = "" then
    [OaiElem.emptyObject]
  else
    [OaiElem.chunk ⟨none, none, some r.content⟩
      (decide (0 ≤ r.timings_prompt_n)) false]

/-- Whether an OAI streaming element carries a content delta. -/
def OaiElem.hasContentDelta : OaiElem → Bool
  | OaiElem.emptyObject => false
  | OaiElem.chunk c _ _ => c.delta_content.isSome

/--
llama_token_data: one candidate entry with token id, logit and probability,
as operated on through llama_token_data_array. Logits and probabilities are
modelled as rationals.
-/
structure llama_token_data where
  id : Nat
  logit : ℚ
  p : ℚ
deriving Repr, DecidableEq

/--
The transcendental numeric collaborators of the sampler (exp for softmax, log
for entropies, pow for the dynamic-temperature exponent), abstracted since
src/src/llama-sampling.h declares but does not define the numeric kernels.
-/
structure NumericOracle where
  fexp : ℚ → ℚ
  flog : ℚ → ℚ
  fpow : ℚ → ℚ → ℚ

/--
Stable insertion of x into a list already ordered by descending key: x lands
before the first element whose key is not greater, so earlier-inserted equals
stay in front.
-/
def insertDescBy {α : Type} (key : α → ℚ) (x : α) : List α → List α
  | [] => [x]
  | y :: ys => if key y ≤ key x then x :: y :: ys else y :: insertDescBy key x ys

/-- Stable sort by descending key (ties keep original order). -/
def sortDescBy {α : Type} (key : α → ℚ) (l : List α) : List α :=
  l.foldr (insertDescBy key) []

/--
Modelled from the spec: llama_constraint_top_k_impl (declared in
src/src/llama-sampling.h, implementation not in the repository snapshot)
keeps the k highest-logit tokens, ties broken by original candidate order.
-/
def llama_constraint_top_k_impl (candidates : List llama_token_data) (k : Nat) :
    List llama_token_data :=
  (sortDescBy (fun td => td.logit) candidates).take k

/--
Modelled from the spec: llama_constraint_softmax_impl sorts the candidates by
descending logit and lazily populates the prob fields with the normalized
exponentials of the logits (exp abstracted through the oracle).
-/
def llama_constraint_softmax_impl (fexp : ℚ → ℚ)
    (candidates : List llama_token_data) : List llama_token_data :=
  let sorted := sortDescBy (fun td => td.logit) candidates
  let total := (sorted.map (fun td => fexp td.logit)).sum
  sorted.map (fun td => { td with p := fexp td.logit / total })

/--
Length of the smallest prefix of the given probability list whose cumulative
sum reaches p (the whole list when the total never reaches p).
-/
def cutPointCum (p : ℚ) : List ℚ → Nat
  | [] => 0
  | q :: qs => if p ≤ q then 1 else 1 + cutPointCum (p - q) qs

/--
Modelled from the spec: llama_constraint_top_p_impl keeps the smallest prefix,
after descending sort and softmax, whose cumulative probability reaches p,
always keeping at least min_keep tokens.
-/
def llama_constraint_top_p_impl (fexp : ℚ → ℚ)
    (candidates : List llama_token_data) (p : ℚ) (min_keep : Nat) :
    List llama_token_data :=
  let sorted := llama_constraint_softmax_impl fexp candidates
  sorted.take (max (cutPointCum p (sorted.map (fun td => td.p))) min_keep)

/--
Modelled from the spec: llama_constraint_min_p_impl keeps the tokens whose
probability is at least p times the maximum probability, with a min_keep
floor taken from the sorted candidates.
-/
def llama_constraint_min_p_impl (fexp : ℚ → ℚ)
    (candidates : List llama_token_data) (p : ℚ) (min_keep : Nat) :
    List llama_token_data :=
  let probs := llama_constraint_softmax_impl fexp candidates
  let maxp := (probs.map (fun td => td.p)).foldr max 0
  let kept := probs.filter (fun td => p * maxp ≤ td.p)
  if kept.length < min_keep then probs.take min_keep else kept

/-- First differences of a list (used by the tail-free second derivative). -/
def listDiffs : List ℚ → List ℚ
  | a :: b :: rest => (a - b) :: listDiffs (b :: rest)
  | _ => []

/--
Modelled from the spec: llama_constraint_tail_free_impl drops the tail at the
point where the normalized absolute second derivative of the sorted
probabilities accumulates to z, with a min_keep floor.
-/
def llama_constraint_tail_free_impl (fexp : ℚ → ℚ)
    (candidates : List llama_token_data) (z : ℚ) (min_keep : Nat) :
    List llama_token_data :=
  let sorted := llama_constraint_softmax_impl fexp candidates
  let second := (listDiffs (listDiffs (sorted.map (fun td => td.p)))).map abs
  let total := second.sum
  let norm := second.map (fun q => q / total)
  sorted.take (max (cutPointCum z norm) min_keep)

/--
Modelled from the spec: llama_constraint_typical_impl orders tokens by the
absolute deviation of their surprisal from the distribution entropy and keeps
the smallest such prefix whose cumulative probability reaches p, with a
min_keep floor.
-/
def llama_constraint_typical_impl (fexp flog : ℚ → ℚ)
    (candidates : List llama_token_data) (p : ℚ) (min_keep : Nat) :
    List llama_token_data :=
  let probs := llama_constraint_softmax_impl fexp candidates
  let entropy := -((probs.map (fun td => td.p * flog td.p)).sum)
  let scored := probs.map (fun td => (|(-(flog td.p)) - entropy|, td))
  let sorted := sortDescBy (fun pr => -(pr.1)) scored
  ((sorted.map (fun pr => pr.2)).take
    (max (cutPointCum p (sorted.map (fun pr => pr.2.p))) min_keep))

/--
Modelled from the spec: llama_constraint_temp_impl rescales every logit by
the temperature.
-/
def llama_constraint_temp_impl (candidates : List llama_token_data) (temp : ℚ) :
    List llama_token_data :=
  candidates.map (fun td => { td with logit := td.logit / temp })

/--
Modelled from the spec: llama_constraint_entropy_impl computes a dynamic
temperature between min_temp and max_temp from the normalized entropy of the
candidate distribution, shaped by the exponent, and rescales every logit by
it (log and pow abstracted through the oracle).
-/
def llama_constraint_entropy_impl (no : NumericOracle)
    (candidates : List llama_token_data)
    (min_temp max_temp exponent_val : ℚ) : List llama_token_data :=
  let probs := llama_constraint_softmax_impl no.fexp candidates
  let entropy := -((probs.map (fun td => td.p * no.flog td.p)).sum)
  let maxEntropy := no.flog (candidates.length : ℚ)
  let dyn_temp :=
    min_temp + (max_temp - min_temp) * no.fpow (entropy / maxEntropy) exponent_val
  candidates.map (fun td => { td with logit := td.logit / dyn_temp })

/--
Modelled from the spec: llama_constraint_grammar_impl removes every candidate
token that the grammar automaton would reject; the automaton's verdict is
abstracted as the rejects predicate carried by the constraint.
-/
def llama_constraint_grammar_impl (rejects : Nat → Bool)
    (candidates : List llama_token_data) : List llama_token_data :=
  candidates.filter (fun td => !(rejects td.id))

/--
Modelled from the spec: llama_constraint_penalties_impl adjusts the logit of
every token present in the history window (token_count gives its occurrence
count): the repeat penalty rescales the logit and the frequency and presence
terms are subtracted, scaled by the count.
-/
def llama_constraint_penalties_impl (candidates : List llama_token_data)
    (token_count : Nat → Nat)
    (penalty_repeat penalty_freq penalty_present : ℚ) :
    List llama_token_data :=
  candidates.map (fun td =>
    let cnt := token_count td.id
    if cnt = 0 then td
    else { td with logit :=
      (if td.logit ≤ 0 then td.logit * penalty_repeat else td.logit / penalty_repeat)
        - (cnt : ℚ) * penalty_freq - penalty_present })

/--
Modelled from the spec: llama_constraint_init_logit_bias_impl yields a
constraint that adds a per-token bias to the logits.
-/
def llama_constraint_logit_bias_impl (bias : Nat → ℚ)
    (candidates : List llama_token_data) : List llama_token_data :=
  candidates.map (fun td => { td with logit := td.logit + bias td.id })

/--
The llama_constraint variants of src/src/llama-sampling.h (the init_*_impl
constructors), as a tagged type: each carries its parameters; the grammar
automaton verdict and the penalty history counter are carried as functions.
-/
inductive llama_constraint where
  | top_k (k : Nat)
  | top_p (p : ℚ) (min_keep : Nat)
  | min_p (p : ℚ) (min_keep : Nat)
  | tail_free (z : ℚ) (min_keep : Nat)
  | typical (p : ℚ) (min_keep : Nat)
  | temp (t : ℚ)
  | temp_ext (t delta expon : ℚ)
  | grammar (rejects : Nat → Bool)
  | penalties (token_count : Nat → Nat)
      (penalty_repeat penalty_freq penalty_present : ℚ)
  | logit_bias (bias : Nat → ℚ)

/--
llama_constraint_apply_impl: dispatch of one constraint over the candidate
array (modelled from the spec, the virtual dispatch table being absent from
the repository snapshot).
-/
def llama_constraint_apply_impl (no : NumericOracle) :
    llama_constraint → List llama_token_data → List llama_token_data
  | llama_constraint.top_k k, c => llama_constraint_top_k_impl c k
  | llama_constraint.top_p p mk, c => llama_constraint_top_p_impl no.fexp c p mk
  | llama_constraint.min_p p mk, c => llama_constraint_min_p_impl no.fexp c p mk
  | llama_constraint.tail_free z mk, c =>
      llama_constraint_tail_free_impl no.fexp c z mk
  | llama_constraint.typical p mk, c =>
      llama_constraint_typical_impl no.fexp no.flog c p mk
  | llama_constraint.temp t, c => llama_constraint_temp_impl c t
  | llama_constraint.temp_ext t delta expon, c =>
      llama_constraint_entropy_impl no c (t - delta) (t + delta) expon
  | llama_constraint.grammar rejects, c => llama_constraint_grammar_impl rejects c
  | llama_constraint.penalties tc pr pf pp, c =>
      llama_constraint_penalties_impl c tc pr pf pp
  | llama_constraint.logit_bias bias, c => llama_constraint_logit_bias_impl bias c

/--
llama_sampler_apply_impl: runs every constraint of the sampler's pipeline in
order over the candidate array (modelled from the spec).
-/
def llama_sampler_apply_impl (no : NumericOracle)
    (constraints : List llama_constraint)
    (candidates : List llama_token_data) : List llama_token_data :=
  constraints.foldl (fun cur cnstr => llama_constraint_apply_impl no cnstr cur)
    candidates

/--
Modelled from the spec: the std::mt19937 engine held in llama_sampler.rng,
abstracted as a deterministic pure state machine on a Nat state (a 32-bit
linear congruential step stands in for the Mersenne twister).
-/
def rng_next (s : Nat) : Nat × Nat :=
  let s' := (1664525 * s + 1013904223) % 4294967296
  (s', s')

/-- Draw one token from a probability-annotated candidate list by walking the
cumulative distribution until the uniform draw u is covered. -/
def selectToken (u : ℚ) : List llama_token_data → Nat
  | [] => 0
  | [td] => td.id
  | td :: next :: rest =>
      if u ≤ td.p then td.id else selectToken (u - td.p) (next :: rest)

/--
Modelled from the spec: llama_sampler_sample_dist_impl draws one token from
the categorical distribution of the normalized candidate probabilities using
the sampler's own RNG stream, returning the token and the advanced RNG state.
-/
def llama_sampler_sample_dist_impl (no : NumericOracle)
    (candidates : List llama_token_data) (rng : Nat) : Nat × Nat :=
  let probs := llama_constraint_softmax_impl no.fexp candidates
  let dr := rng_next rng
  let u : ℚ := (dr.1 : ℚ) / 4294967296
  (selectToken u probs, dr.2)

/-- n repeated sample calls over the same fixed candidate set, threading the
RNG state, as the sequence of chosen tokens. -/
def llama_sampler_sample_seq (no : NumericOracle)
    (candidates : List llama_token_data) (rng : Nat) : Nat → List Nat
  | 0 => []
  | Nat.succ n =>
      let tr := llama_sampler_sample_dist_impl no candidates rng
      tr.1 :: llama_sampler_sample_seq no candidates tr.2 n

/-- The slot_state enum of examples/server/server.hpp (lines 26-32). -/
inductive slot_state where
  | SLOT_STATE_IDLE
  | SLOT_STATE_STARTED
  | SLOT_STATE_PROCESSING_PROMPT
  | SLOT_STATE_DONE_PROMPT
  | SLOT_STATE_GENERATING
deriving Repr, DecidableEq

/-- The server_task_type enum of examples/server/server.hpp (lines 39-48). -/
inductive server_task_type where
  | SERVER_TASK_TYPE_INFERENCE
  | SERVER_TASK_TYPE_CANCEL
  | SERVER_TASK_TYPE_NEXT_RESPONSE
  | SERVER_TASK_TYPE_METRICS
  | SERVER_TASK_TYPE_SLOT_SAVE
  | SERVER_TASK_TYPE_SLOT_RESTORE
  | SERVER_TASK_TYPE_SLOT_ERASE
  | SERVER_TASK_TYPE_SET_LORA
deriving Repr, DecidableEq

/--
Modelled from the spec: the Task record of the server_task struct (id,
id_target for cancel, type, prompt payload); the scheduler loop consuming it
is absent from the repository snapshot (src only holds server.hpp).
-/
structure ServerTask where
  id : Nat
  id_target : Nat
  ttype : server_task_type
  prompt : List Nat
deriving Repr, DecidableEq

/--
Modelled from the spec: one Slot of the scheduler: id, lifecycle state,
owning task (none when free), unprocessed prompt count, decode counter,
generation budget and the generated-token buffer.
-/
structure ServerSlot where
  id : Nat
  state : slot_state
  id_task : Option Nat
  n_prompt_remaining : Nat
  n_decoded : Nat
  n_predict : Nat
  generated : List Nat
deriving Repr, DecidableEq

/-- Modelled from the spec: a Result delivered to a task's sink. -/
inductive ServerResult where
  | partialRes (id_task : Nat) (token : Nat)
  | finalRes (id_task : Nat) (stop : stop_type)
  | cancelledRes (id_task : Nat)
  | errorRes (id_task : Nat)
  | metricsRes (id_task : Nat)
deriving Repr, DecidableEq

/-- Whether a Result is terminal (everything except a partial stream chunk). -/
def ServerResult.isTerminal : ServerResult → Bool
  | ServerResult.partialRes _ _ => false
  | _ => true

/-- Whether a Result is a Partial for the given task. -/
def ServerResult.isPartialFor (tid : Nat) : ServerResult → Bool
  | ServerResult.partialRes t _ => decide (t = tid)
  | _ => false

/--
Modelled from the spec: the Scheduler-owned state: the slot pool (in slot-id
order, so the lowest-id policy is the first idle slot), the emitted results
and the deferred-task list.
-/
structure SchedState where
  slots : List ServerSlot
  results : List ServerResult
  deferred : List ServerTask
deriving Repr, DecidableEq

/-- Whether a Cancel targeting the given task id hits this slot: the slot is
owned by that task and is not idle. -/
def slotCancelHit (target : Nat) (sl : ServerSlot) : Bool :=
  decide (sl.id_task = some target ∧ sl.state ≠ slot_state.SLOT_STATE_IDLE)

/--
Modelled from the spec (scheduler step 2): a Cancel/Metrics/slot-op task is
applied immediately against the targeted slot: a matching Cancel forces the
slot back to Idle, frees it and emits the terminal cancellation Result; an
unknown target yields an Error result without side effects.
-/
def processControlTask (st : SchedState) (t : ServerTask) : SchedState :=
  match t.ttype with
  | server_task_type.SERVER_TASK_TYPE_CANCEL =>
      if st.slots.any (slotCancelHit t.id_target) then
        { st with
          slots := st.slots.map (fun sl =>
            if slotCancelHit t.id_target sl then
              { sl with state := slot_state.SLOT_STATE_IDLE, id_task := none }
            else sl),
          results := st.results ++ [ServerResult.cancelledRes t.id_target] }
      else
        { st with results := st.results ++ [ServerResult.errorRes t.id_target] }
  | server_task_type.SERVER_TASK_TYPE_METRICS =>
      { st with results := st.results ++ [ServerResult.metricsRes t.id] }
  | _ => st

/--
Modelled from the spec (scheduler step 3): assign an Inference task to the
first Idle slot (lowest id), loading the prompt and moving the slot to
Started; reports whether a slot was found.
-/
def launch_slot_with_task (t : ServerTask) :
    List ServerSlot → List ServerSlot × Bool
  | [] => ([], false)
  | sl :: rest =>
      if sl.state = slot_state.SLOT_STATE_IDLE then
        ({ sl with
            state := slot_state.SLOT_STATE_STARTED,
            id_task := some t.id,
            n_prompt_remaining := t.prompt.length,
            n_decoded := 0,
            generated := [] } :: rest, true)
      else
        let r := launch_slot_with_task t rest
        (sl :: r.1, r.2)

/-- Modelled from the spec: an Inference task with no free slot is deferred,
never dropped. -/
def processInferenceTask (st : SchedState) (t : ServerTask) : SchedState :=
  let r := launch_slot_with_task t st.slots
  if r.2 then { st with slots := r.1 }
  else { st with deferred := st.deferred ++ [t] }

/-- Whether a task is an Inference task. -/
def isInferenceTask (t : ServerTask) : Bool :=
  decide (t.ttype = server_task_type.SERVER_TASK_TYPE_INFERENCE)

/-- Scheduler step 2: apply all control (non-Inference) tasks in order. -/
def sched_step2 (tasks : List ServerTask) (st : SchedState) : SchedState :=
  (tasks.filter (fun t => !(isInferenceTask t))).foldl processControlTask st

/-- Scheduler step 3: assign all Inference tasks in order. -/
def sched_step3 (tasks : List ServerTask) (st : SchedState) : SchedState :=
  (tasks.filter isInferenceTask).foldl processInferenceTask st

/-- Per-slot effect of prompt processing: a Started slot enters
ProcessingPrompt and its prompt chunk is consumed. -/
def promptStartSlot (sl : ServerSlot) : ServerSlot :=
  if sl.state = slot_state.SLOT_STATE_STARTED then
    { sl with
        state := slot_state.SLOT_STATE_PROCESSING_PROMPT,
        n_prompt_remaining := 0 }
  else sl

/-- Per-slot effect of prompt completion: a ProcessingPrompt slot whose
prompt is fully consumed becomes DonePrompt. -/
def promptDoneSlot (sl : ServerSlot) : ServerSlot :=
  if sl.state = slot_state.SLOT_STATE_PROCESSING_PROMPT
      ∧ sl.n_prompt_remaining = 0 then
    { sl with state := slot_state.SLOT_STATE_DONE_PROMPT }
  else sl

/-- Per-slot effect of generation start: a DonePrompt slot immediately
becomes Generating. -/
def genBeginSlot (sl : ServerSlot) : ServerSlot :=
  if sl.state = slot_state.SLOT_STATE_DONE_PROMPT then
    { sl with state := slot_state.SLOT_STATE_GENERATING }
  else sl

/-- Per-slot effect of one generation step: a Generating slot samples the
next token (the evaluator+sampler abstracted as nextTok over slot id and
decode counter) and appends it. -/
def genStepSlot (nextTok : Nat → Nat → Nat) (sl : ServerSlot) : ServerSlot :=
  if sl.state = slot_state.SLOT_STATE_GENERATING then
    { sl with
        generated := sl.generated ++ [nextTok sl.id sl.n_decoded],
        n_decoded := sl.n_decoded + 1 }
  else sl

/-- Stop condition check: last generated token is EOS, or the decode budget
is exhausted. -/
def slotShouldStop (eos : Nat) (sl : ServerSlot) : Bool :=
  decide (sl.generated.getLast? = some eos) || decide (sl.n_predict ≤ sl.n_decoded)

/-- Per-slot effect of the stop check: a stopped Generating slot is reset to
Idle and freed. -/
def stopCheckSlot (eos : Nat) (sl : ServerSlot) : ServerSlot :=
  if sl.state = slot_state.SLOT_STATE_GENERATING ∧ slotShouldStop eos sl = true then
    { sl with state := slot_state.SLOT_STATE_IDLE, id_task := none }
  else sl

/-- Scheduler steps 4-6 (prompt batching and completion), per slot. -/
def sched_prompt_start (st : SchedState) : SchedState :=
  { st with slots := st.slots.map promptStartSlot }

/-- Scheduler step 6: ProcessingPrompt slots with consumed prompt become
DonePrompt. -/
def sched_prompt_done (st : SchedState) : SchedState :=
  { st with slots := st.slots.map promptDoneSlot }

/-- Scheduler step 6 continued: DonePrompt slots immediately become
Generating. -/
def sched_gen_begin (st : SchedState) : SchedState :=
  { st with slots := st.slots.map genBeginSlot }

/-- The Partial Result emitted by one generation step for a Generating slot. -/
def genEmit (nextTok : Nat → Nat → Nat) (sl : ServerSlot) : Option ServerResult :=
  if sl.state = slot_state.SLOT_STATE_GENERATING then
    match sl.id_task with
    | some tid => some (ServerResult.partialRes tid (nextTok sl.id sl.n_decoded))
    | none => none
  else none

/-- The Final Result emitted by the stop check for a stopped Generating slot,
with the stop reason chosen by the EOS-before-limit priority. -/
def stopEmit (eos : Nat) (sl : ServerSlot) : Option ServerResult :=
  if sl.state = slot_state.SLOT_STATE_GENERATING ∧ slotShouldStop eos sl = true then
    match sl.id_task with
    | some tid =>
        some (ServerResult.finalRes tid
          (if sl.generated.getLast? = some eos then stop_type.STOP_TYPE_EOS
           else stop_type.STOP_TYPE_LIMIT))
    | none => none
  else none

/-- Scheduler step 7/8: each Generating slot samples one token and a Partial
Result is emitted for it. -/
def sched_gen_step (nextTok : Nat → Nat → Nat) (st : SchedState) : SchedState :=
  { st with
    slots := st.slots.map (genStepSlot nextTok),
    results := st.results ++ st.slots.filterMap (genEmit nextTok) }

/-- Scheduler step 8: emit a Final Result and reset the slot to Idle when a
stop condition fired. -/
def sched_stop_check (eos : Nat) (st : SchedState) : SchedState :=
  { st with
    slots := st.slots.map (stopCheckSlot eos),
    results := st.results ++ st.slots.filterMap (stopEmit eos) }

/--
Modelled from the spec: one iteration of the scheduler main loop over the
drained tasks: control tasks (step 2), inference assignment (step 3), prompt
processing and completion (steps 4-6), generation and stop handling
(steps 7-8).
-/
def server_iteration (nextTok : Nat → Nat → Nat) (eos : Nat)
    (tasks : List ServerTask) (st : SchedState) : SchedState :=
  sched_stop_check eos
    (sched_gen_step nextTok
      (sched_gen_begin
        (sched_prompt_done
          (sched_prompt_start
            (sched_step3 tasks
              (sched_step2 tasks st))))))

/-- The state of slot i (Idle when the index is out of range). -/
def slotStateAt (st : SchedState) (i : Nat) : slot_state :=
  match st.slots[i]? with
  | some sl => sl.state
  | none => slot_state.SLOT_STATE_IDLE

/-- The successor along the slot lifecycle path
Idle, Started, ProcessingPrompt, DonePrompt, Generating, back to Idle. -/
def next_slot_state : slot_state → slot_state
  | slot_state.SLOT_STATE_IDLE => slot_state.SLOT_STATE_STARTED
  | slot_state.SLOT_STATE_STARTED => slot_state.SLOT_STATE_PROCESSING_PROMPT
  | slot_state.SLOT_STATE_PROCESSING_PROMPT => slot_state.SLOT_STATE_DONE_PROMPT
  | slot_state.SLOT_STATE_DONE_PROMPT => slot_state.SLOT_STATE_GENERATING
  | slot_state.SLOT_STATE_GENERATING => slot_state.SLOT_STATE_IDLE

/-- One admissible change of a slot's state field: unchanged, one step along
the lifecycle path, or directly to Idle when a Cancel hit the slot. -/
def slot_step_ok (cancelHit : Bool) (s s' : slot_state) : Prop :=
  s' = s ∨ s' = next_slot_state s ∨ (cancelHit = true ∧ s' = slot_state.SLOT_STATE_IDLE)

/-- Whether some Cancel task in the drained batch targets this slot. -/
def cancelTargets (tasks : List ServerTask) (sl : ServerSlot) : Bool :=
  tasks.any (fun t =>
    decide (t.ttype = server_task_type.SERVER_TASK_TYPE_CANCEL)
      && slotCancelHit t.id_target sl)

/-- The successive states of slot i at every phase boundary of one scheduler
iteration. -/
def schedIterTrace (nextTok : Nat → Nat → Nat) (eos : Nat)
    (tasks : List ServerTask) (st : SchedState) (i : Nat) : List slot_state :=
  let st2 := sched_step2 tasks st
  let st3 := sched_step3 tasks st2
  let st4 := sched_prompt_start st3
  let st5 := sched_prompt_done st4
  let st6 := sched_gen_begin st5
  let st7 := sched_gen_step nextTok st6
  let st8 := sched_stop_check eos st7
  [slotStateAt st i, slotStateAt st2 i, slotStateAt st3 i, slotStateAt st4 i,
   slotStateAt st5 i, slotStateAt st6 i, slotStateAt st7 i, slotStateAt st8 i]

/--
The result record server_task_result_slot_save_load of
examples/server/server.hpp (lines 617-648): slot id, filename, direction,
token count and byte count (the float timing field is not modelled).
-/
structure server_task_result_slot_save_load where
  id_slot : Nat
  filename : String
  is_save : Bool
  n_tokens : Nat
  n_bytes : Nat
deriving Repr, DecidableEq

/--
Modelled from the spec: SlotSave serializes a slot's cache_tokens and
generated_tokens into an opaque blob recording both counts followed by both
sequences (the byte layout is an implementation choice; one cell per count
or token here), reporting the token count and blob length.
-/
def slot_save (id_slot : Nat) (filename : String)
    (cache_tokens generated_tokens : List Nat) :
    List Nat × server_task_result_slot_save_load :=
  let blob := cache_tokens.length :: generated_tokens.length
    :: (cache_tokens ++ generated_tokens)
  (blob, ⟨id_slot, filename, true,
    cache_tokens.length + generated_tokens.length, blob.length⟩)

/--
Modelled from the spec: SlotRestore parses a blob produced by slot_save back
into the cache_tokens and generated_tokens of a fresh slot, failing on a
malformed blob, and reports the restored token count and blob length.
-/
def slot_restore (id_slot : Nat) (filename : String) (blob : List Nat) :
    Option ((List Nat × List Nat) × server_task_result_slot_save_load) :=
  match blob with
  | nc :: ng :: rest =>
      if rest.length = nc + ng then
        some ((rest.take nc, rest.drop nc),
          ⟨id_slot, filename, false, nc + ng, rest.length + 2⟩)
      else none
  | _ => none

theorem chatparts_foldl_append_length (parts : List String) (s : String) :
    (parts.foldl (fun a b => a ++ b) s).length
      = s.length + (parts.map String.length).sum := by
  induction parts generalizing s with
  | nil => simp
  | cons p ps ih =>
      simp only [List.foldl_cons, List.map_cons, List.sum_cons]
      rw [ih, String.length_append]
      omega

/-- str length is always the sum of the part lengths. -/
theorem chatparts_str_length (cp : ChatParts) :
    cp.str.length = cp.get_partslens.sum := by
  simpa [ChatParts.str, ChatParts.get_partslens] using
    chatparts_foldl_append_length cp.parts ""

theorem chatparts_add_part_inv (cp cp' : ChatParts) (ty : Char) (part : String)
    (hinv : cp.Inv) (h : cp.add_part ty part = some cp') : cp'.Inv := by
  unfold ChatParts.add_part at h
  by_cases hty : cp.last_type = ty
  · simp only [hty, if_pos rfl] at h
    cases hlast : cp.parts.getLast? with
    | none => rw [hlast] at h; exact absurd h (by simp)
    | some lastPart =>
        rw [hlast] at h
        have hne : cp.parts ≠ [] := by
          intro he; rw [he] at hlast; simp at hlast
        have := Option.some.inj h
        subst this
        constructor
        · have hlen : (cp.parts.dropLast ++ [lastPart ++ part]).length
              = cp.parts.length := by
            simp [List.length_dropLast]
            have : 1 ≤ cp.parts.length := List.length_pos.mpr hne
            omega
          simpa [hlen] using hinv.1
        · exact hinv.2
  · simp only [if_neg hty] at h
    have := Option.some.inj h
    subst this
    constructor
    · simp [hinv.1]
    · rw [List.chain'_append]
      refine ⟨hinv.2, List.chain'_singleton _, ?_⟩
      intro x hx y hy
      simp at hy
      subst hy
      intro hxy
      apply hty
      unfold ChatParts.last_type
      rw [hx]
      exact hxy

theorem chatparts_foldlM_inv (calls : List (Char × String)) :
    ∀ cp0 cp : ChatParts, cp0.Inv →
      calls.foldlM (fun cp pc => cp.add_part pc.1 pc.2) cp0 = some cp → cp.Inv := by
  induction calls with
  | nil =>
      intro cp0 cp h0 h
      simp only [List.foldlM_nil, pure, Option.some.injEq] at h
      subst h; exact h0
  | cons c cs ih =>
      intro cp0 cp h0 h
      simp only [List.foldlM_cons, Option.bind_eq_bind] at h
      cases hstep : cp0.add_part c.1 c.2 with
      | none => rw [hstep] at h; simp at h
      | some cp1 =>
          rw [hstep] at h
          simp only [Option.some_bind] at h
          exact ih cp1 cp (chatparts_add_part_inv cp0 cp1 c.1 c.2 h0 hstep) h

/--
Claim C9: for every sequence of add_part calls on an initially empty ChatParts
whose execution is defined, the number of stored parts equals the length of the
string returned by get_partstypes, no two adjacent type characters are equal
(consecutive parts of the same type are merged), and the length of str()
equals the sum of the entries of get_partslens().
-/
theorem chatparts_invariants (calls : List (Char × String)) (cp : ChatParts)
    (h : ChatParts.run calls = some cp) :
    cp.parts.length = cp.get_partstypes.length
      ∧ cp.get_partstypes.Chain' (fun a b => a ≠ b)
      ∧ cp.str.length = cp.get_partslens.sum := by
  have hinv : cp.Inv := by
    refine chatparts_foldlM_inv calls ChatParts.emptyCP cp ?_ h
    exact ⟨rfl, List.chain'_nil⟩
  exact ⟨hinv.1, hinv.2, chatparts_str_length cp⟩

/-- Concrete witness for claim C9. -/
theorem chatparts_invariants_witness :
    ChatParts.run [(ChatParts.S, "ab"), (ChatParts.N, "c"), (ChatParts.N, "d")]
        = some ⟨["ab", "cd"], ['s', 'n']⟩
      ∧ ((["ab", "cd"] : List String).length = (['s', 'n'] : List Char).length
          ∧ (['s', 'n'] : List Char).Chain' (fun a b => a ≠ b)
          ∧ (ChatParts.mk ["ab", "cd"] ['s', 'n']).str.length
              = (ChatParts.mk ["ab", "cd"] ['s', 'n']).get_partslens.sum) :=
  ⟨rfl, chatparts_invariants
    [(ChatParts.S, "ab"), (ChatParts.N, "c"), (ChatParts.N, "d")]
    ⟨["ab", "cd"], ['s', 'n']⟩ rfl⟩

theorem chaton_msgs_parts_getElem (t : ChatTemplateData) (msgs : List ChatMessage) :
    ∀ (i cs0 cu0 : Nat) (m : ChatMessage), msgs[i]? = some m →
      (chaton_msgs_parts t msgs cs0 cu0)[i]?
        = some (chaton_msg_parts t m.role m.content
            (cs0 + cntSystemMsgs (msgs.take (i+1)))
            (cu0 + cntUserMsgs (msgs.take (i+1)))) := by
  induction msgs with
  | nil =>
      intro i cs0 cu0 m hm
      simp at hm
  | cons a ms ih =>
      intro i cs0 cu0 m hm
      cases i with
      | zero =>
          have hm' : a = m := by simpa using hm
          subst hm'
          have h1 : (if a.role = "system" then cs0 + 1 else cs0)
              = cs0 + cntSystemMsgs ((a :: ms).take 1) := by
            simp only [cntSystemMsgs, List.take_cons, List.take_zero, List.countP_cons,
              List.countP_nil]
            by_cases h : a.role = "system" <;> simp [h]
          have h2 : (if a.role = "user" then cu0 + 1 else cu0)
              = cu0 + cntUserMsgs ((a :: ms).take 1) := by
            simp only [cntUserMsgs, List.take_cons, List.take_zero, List.countP_cons,
              List.countP_nil]
            by_cases h : a.role = "user" <;> simp [h]
          simp only [chaton_msgs_parts, List.getElem?_cons_zero, Option.some.injEq]
          rw [h1, h2]
      | succ n =>
          simp only [List.getElem?_cons_succ] at hm
          have hind := ih n (if a.role = "system" then cs0 + 1 else cs0)
            (if a.role = "user" then cu0 + 1 else cu0) m hm
          simp only [chaton_msgs_parts, List.getElem?_cons_succ]
          rw [hind]
          have h1 : (if a.role = "system" then cs0 + 1 else cs0)
                + cntSystemMsgs (ms.take (n+1))
              = cs0 + cntSystemMsgs ((a :: ms).take (n+2)) := by
            simp only [cntSystemMsgs, List.take_cons, List.countP_cons]
            by_cases h : a.role = "system" <;> simp [h] <;> omega
          have h2 : (if a.role = "user" then cu0 + 1 else cu0)
                + cntUserMsgs (ms.take (n+1))
              = cu0 + cntUserMsgs ((a :: ms).take (n+2)) := by
            simp only [cntUserMsgs, List.take_cons, List.countP_cons]
            by_cases h : a.role = "user" <;> simp [h] <;> omega
          rw [h1, h2]

/--
Claim C6: in chaton_tmpl_apply_ex with initial system and user message counts
of zero, the system-suffix/system-end tags are conditionally suppressed
(governed by the systemuser-* flags) only for the first system message, the
user-begin/user-prefix tags only for the first user message of the first
system+user pair, and every later system or user message receives its begin,
prefix, suffix and end tags unconditionally.
-/
theorem chaton_first_pair_tag_policy (t : ChatTemplateData) (msgs : List ChatMessage)
    (i : Nat) (m : ChatMessage) (hm : msgs[i]? = some m) :
    (m.role = "system" → cntSystemMsgs (msgs.take (i+1)) ≠ 1 →
      (chaton_msgs_parts t msgs 0 0)[i]?
        = some (chaton_uncond_parts t m.role m.content))
    ∧ (m.role = "user" →
        ¬(cntSystemMsgs (msgs.take (i+1)) = 1 ∧ cntUserMsgs (msgs.take (i+1)) = 1) →
      (chaton_msgs_parts t msgs 0 0)[i]?
        = some (chaton_uncond_parts t m.role m.content))
    ∧ (m.role = "system" → cntSystemMsgs (msgs.take (i+1)) = 1 →
      (chaton_msgs_parts t msgs 0 0)[i]?
        = some ([(ChatParts.S, t.roleTag m.role "begin"),
                 (ChatParts.S, t.roleTag m.role "prefix"),
                 (ChatParts.N, m.content)]
            ++ (if t.sysHasSuffix then [(ChatParts.S, t.roleTag m.role "suffix")] else [])
            ++ (if t.sysHasEnd then [(ChatParts.S, t.roleTag m.role "end")] else [])))
    ∧ (m.role = "user" → cntSystemMsgs (msgs.take (i+1)) = 1 →
        cntUserMsgs (msgs.take (i+1)) = 1 →
      (chaton_msgs_parts t msgs 0 0)[i]?
        = some ((if t.userHasBegin then [(ChatParts.S, t.roleTag m.role "begin")] else [])
            ++ (if t.userHasPref then [(ChatParts.S, t.roleTag m.role "prefix")] else [])
            ++ [(ChatParts.N, m.content),
                (ChatParts.S, t.roleTag m.role "suffix"),
                (ChatParts.S, t.roleTag m.role "end")])) := by
  have hidx := chaton_msgs_parts_getElem t msgs i 0 0 m hm
  simp only [Nat.zero_add] at hidx
  have hus : ("user" : String) ≠ "system" := by decide
  refine ⟨?_, ?_, ?_, ?_⟩
  · intro hrole hcs
    rw [hidx]
    simp only [chaton_msg_parts, chaton_uncond_parts, hrole, if_pos rfl, if_neg hcs]
    simp
  · intro hrole hpair
    rw [hidx]
    simp only [chaton_msg_parts, chaton_uncond_parts, hrole, if_neg hus, if_pos rfl,
      if_neg hpair]
    simp
  · intro hrole hcs
    rw [hidx]
    simp only [chaton_msg_parts, hrole, if_pos rfl, if_pos hcs]
    simp
  · intro hrole hcs hcu
    rw [hidx]
    simp only [chaton_msg_parts, hrole, if_neg hus, if_pos rfl,
      if_pos (And.intro hcs hcu)]
    simp

/-- Concrete witness for claim C6: the second user message (after a system
message) is tagged unconditionally. -/
theorem chaton_first_pair_tag_policy_witness :
    (chaton_msgs_parts
        (ChatTemplateData.mk (fun r k => r ++ "-" ++ k) false false false false)
        [⟨"system", "A"⟩, ⟨"user", "B"⟩, ⟨"user", "C"⟩] 0 0)[2]?
      = some (chaton_uncond_parts
          (ChatTemplateData.mk (fun r k => r ++ "-" ++ k) false false false false)
          (ChatMessage.mk "user" "C").role (ChatMessage.mk "user" "C").content) :=
  (chaton_first_pair_tag_policy
    (ChatTemplateData.mk (fun r k => r ++ "-" ++ k) false false false false)
    [⟨"system", "A"⟩, ⟨"user", "B"⟩, ⟨"user", "C"⟩] 2 (ChatMessage.mk "user" "C")
    rfl).2.1 rfl (by decide)

/--
Claim C10: for every input text and every combination of the add_special and
parse_special flags, chaton_llama_tokenize called with a null model pointer
returns the empty token vector, whatever the external tokenizer does.
-/
theorem chaton_llama_tokenize_null_model {Model : Type}
    (llamaTokenizeExt : Model → String → Bool → Bool → List Int)
    (text : String) (add_special parse_special : Bool) :
    chaton_llama_tokenize llamaTokenizeExt none text add_special parse_special
      = [] :=
  rfl

/--
Claim C5: in OAI-compatible streaming serialization of a partial completion
result, an empty content delta on a non-first token with no stop condition is
emitted as the bare empty object, never as a content chunk; in every other
case at least one real chunk is emitted, and in particular the first token
with empty content yields the role-announcement chunk.
-/
theorem cmpl_partial_oai_empty_delta (r : CmplPartialResult) :
    ((r.n_decoded ≠ 0 ∧ r.stop = stop_type.STOP_TYPE_NONE ∧ r.content = "") →
        to_json_oai_compat r = [OaiElem.emptyObject])
    ∧ (¬(r.n_decoded ≠ 0 ∧ r.stop = stop_type.STOP_TYPE_NONE ∧ r.content = "") →
        ∃ e ∈ to_json_oai_compat r, e ≠ OaiElem.emptyObject)
    ∧ ((r.n_decoded = 0 ∧ r.stop = stop_type.STOP_TYPE_NONE ∧ r.content = "") →
        to_json_oai_compat r
          = [OaiElem.chunk ⟨none, some "assistant", none⟩
              (decide (0 ≤ r.timings_prompt_n)) false]) := by
  obtain ⟨content, n_decoded, n_prompt_tokens, stop, tpn⟩ := r
  cases stop <;> by_cases hc : content = "" <;> by_cases hn : n_decoded = 0 <;>
    simp_all [to_json_oai_compat]

/-- Concrete witness for claim C5: a non-first empty delta with no stop is the
bare empty object. -/
theorem cmpl_partial_oai_empty_delta_witness :
    to_json_oai_compat ⟨"", 3, 5, stop_type.STOP_TYPE_NONE, -1⟩
      = [OaiElem.emptyObject] :=
  (cmpl_partial_oai_empty_delta ⟨"", 3, 5, stop_type.STOP_TYPE_NONE, -1⟩).1
    ⟨by decide, rfl, rfl⟩

theorem insertDescBy_perm {α : Type} (key : α → ℚ) (x : α) (l : List α) :
    (insertDescBy key x l).Perm (x :: l) := by
  induction l with
  | nil => exact List.Perm.refl _
  | cons y ys ih =>
      unfold insertDescBy
      by_cases h : key y ≤ key x
      · simp only [if_pos h]
        exact List.Perm.refl _
      · simp only [if_neg h]
        exact (ih.cons y).trans (List.Perm.swap x y ys)

theorem sortDescBy_perm {α : Type} (key : α → ℚ) (l : List α) :
    (sortDescBy key l).Perm l := by
  induction l with
  | nil => exact List.Perm.refl _
  | cons a l ih =>
      have h1 : sortDescBy key (a :: l) = insertDescBy key a (sortDescBy key l) := rfl
      rw [h1]
      exact (insertDescBy_perm key a (sortDescBy key l)).trans (ih.cons a)

theorem sortDescBy_length {α : Type} (key : α → ℚ) (l : List α) :
    (sortDescBy key l).length = l.length :=
  (sortDescBy_perm key l).length_eq

theorem insertDescBy_pairwise {α : Type} (key : α → ℚ) (x : α) (l : List α)
    (h : l.Pairwise (fun a b => key b ≤ key a)) :
    (insertDescBy key x l).Pairwise (fun a b => key b ≤ key a) := by
  induction l with
  | nil => simp [insertDescBy]
  | cons y ys ih =>
      obtain ⟨hy, hys⟩ := List.pairwise_cons.mp h
      unfold insertDescBy
      by_cases hxy : key y ≤ key x
      · simp only [if_pos hxy]
        refine List.pairwise_cons.mpr ⟨?_, h⟩
        intro z hz
        rcases List.mem_cons.mp hz with hz' | hz'
        · rw [hz']; exact hxy
        · exact le_trans (hy z hz') hxy
      · simp only [if_neg hxy]
        refine List.pairwise_cons.mpr ⟨?_, ih hys⟩
        intro z hz
        rcases List.mem_cons.mp ((insertDescBy_perm key x ys).mem_iff.mp hz)
          with hz' | hz'
        · rw [hz']; exact le_of_lt (lt_of_not_le hxy)
        · exact hy z hz'

theorem sortDescBy_pairwise {α : Type} (key : α → ℚ) (l : List α) :
    (sortDescBy key l).Pairwise (fun a b => key b ≤ key a) := by
  induction l with
  | nil => simp [sortDescBy]
  | cons a l ih =>
      have h1 : sortDescBy key (a :: l) = insertDescBy key a (sortDescBy key l) := rfl
      rw [h1]
      exact insertDescBy_pairwise key a (sortDescBy key l) ih

theorem insertDescBy_filter {α : Type} (key : α → ℚ) (v : ℚ) (x : α)
    (l : List α) :
    (insertDescBy key x l).filter (fun a => decide (key a = v))
      = if key x = v then x :: l.filter (fun a => decide (key a = v))
        else l.filter (fun a => decide (key a = v)) := by
  induction l with
  | nil =>
      by_cases h : key x = v <;> simp [insertDescBy, List.filter_cons, h]
  | cons y ys ih =>
      unfold insertDescBy
      by_cases hxy : key y ≤ key x
      · simp only [if_pos hxy]
        by_cases hv : key x = v
        · rw [if_pos hv]
          simp [List.filter_cons, hv]
        · rw [if_neg hv]
          simp [List.filter_cons, hv]
      · simp only [if_neg hxy]
        by_cases hv : key x = v
        · rw [if_pos hv]
          have hyne : ¬ key y = v := by
            intro he
            exact hxy (le_of_eq (he.trans hv.symm))
          simp [List.filter_cons, hyne, ih, hv]
        · rw [if_neg hv]
          by_cases hyv : key y = v <;> simp [List.filter_cons, hyv, ih, hv]

theorem sortDescBy_filter {α : Type} (key : α → ℚ) (v : ℚ) (l : List α) :
    (sortDescBy key l).filter (fun a => decide (key a = v))
      = l.filter (fun a => decide (key a = v)) := by
  induction l with
  | nil => simp [sortDescBy]
  | cons a l ih =>
      have h1 : sortDescBy key (a :: l) = insertDescBy key a (sortDescBy key l) := rfl
      rw [h1, insertDescBy_filter]
      by_cases hv : key a = v <;> simp [List.filter_cons, hv, ih]

theorem llama_constraint_softmax_length (fexp : ℚ → ℚ)
    (c : List llama_token_data) :
    (llama_constraint_softmax_impl fexp c).length = c.length := by
  simp [llama_constraint_softmax_impl, sortDescBy_length]

theorem llama_constraint_apply_shrinks (no : NumericOracle)
    (cnstr : llama_constraint) (c : List llama_token_data) :
    (llama_constraint_apply_impl no cnstr c).length ≤ c.length := by
  cases cnstr with
  | top_k k =>
      simp only [llama_constraint_apply_impl, llama_constraint_top_k_impl]
      rw [List.length_take, sortDescBy_length]
      omega
  | top_p p mk =>
      simp only [llama_constraint_apply_impl, llama_constraint_top_p_impl]
      rw [List.length_take, llama_constraint_softmax_length]
      omega
  | min_p p mk =>
      simp only [llama_constraint_apply_impl, llama_constraint_min_p_impl]
      split
      · rw [List.length_take, llama_constraint_softmax_length]
        omega
      · exact le_trans (List.length_filter_le _ _)
          (le_of_eq (llama_constraint_softmax_length no.fexp c))
  | tail_free z mk =>
      simp only [llama_constraint_apply_impl, llama_constraint_tail_free_impl]
      rw [List.length_take, llama_constraint_softmax_length]
      omega
  | typical p mk =>
      simp only [llama_constraint_apply_impl, llama_constraint_typical_impl]
      rw [List.length_take, List.length_map, sortDescBy_length, List.length_map,
        llama_constraint_softmax_length]
      omega
  | temp t =>
      simp [llama_constraint_apply_impl, llama_constraint_temp_impl]
  | temp_ext t delta expon =>
      simp [llama_constraint_apply_impl, llama_constraint_entropy_impl]
  | grammar rejects =>
      simpa [llama_constraint_apply_impl, llama_constraint_grammar_impl] using
        List.length_filter_le _ c
  | penalties tc pr pf pp =>
      simp [llama_constraint_apply_impl, llama_constraint_penalties_impl]
  | logit_bias bias =>
      simp [llama_constraint_apply_impl, llama_constraint_logit_bias_impl]

/--
Claim C3: applying any constraint of the pipeline never increases the
candidate set's size, and along the pipeline the set passed into constraint
N+1 is never larger than the set returned by constraint N.
-/
theorem sampler_pipeline_never_grows (no : NumericOracle)
    (cnstr : llama_constraint) (cs : List llama_constraint)
    (c : List llama_token_data) (n : Nat) :
    (llama_constraint_apply_impl no cnstr c).length ≤ c.length
    ∧ (llama_sampler_apply_impl no (cs.take (n+1)) c).length
        ≤ (llama_sampler_apply_impl no (cs.take n) c).length := by
  refine ⟨llama_constraint_apply_shrinks no cnstr c, ?_⟩
  rw [List.take_succ]
  cases h : cs[n]? with
  | none => simp [llama_sampler_apply_impl]
  | some k =>
      simp only [llama_sampler_apply_impl, Option.toList_some, List.foldl_append,
        List.foldl_cons, List.foldl_nil]
      exact llama_constraint_apply_shrinks no k _

/-- Concrete witness for claim C3. -/
theorem sampler_pipeline_never_grows_witness :
    (llama_constraint_apply_impl
        ⟨fun _ => 1, fun _ => 0, fun _ _ => 1⟩ (llama_constraint.top_k 1)
        [⟨10, 1, 0⟩, ⟨11, 3, 0⟩, ⟨12, 1, 0⟩]).length
      ≤ ([⟨10, 1, 0⟩, ⟨11, 3, 0⟩, ⟨12, 1, 0⟩] :
          List llama_token_data).length :=
  (sampler_pipeline_never_grows ⟨fun _ => 1, fun _ => 0, fun _ _ => 1⟩
    (llama_constraint.top_k 1) [] [⟨10, 1, 0⟩, ⟨11, 3, 0⟩, ⟨12, 1, 0⟩] 0).1

/--
Claim C4: the top-k constraint returns exactly min(k, number of candidates)
tokens, every kept token's logit is at least every excluded token's logit,
and ties are broken by original candidate order (the descending sort is
stable: for every logit value the relative order of the original list is
preserved, so equal-logit tokens are kept in first-come order).
-/
theorem top_k_spec (c : List llama_token_data) (k : Nat) :
    (llama_constraint_top_k_impl c k).length = min k c.length
    ∧ (∀ x ∈ llama_constraint_top_k_impl c k,
        ∀ y ∈ (sortDescBy (fun td => td.logit) c).drop k, y.logit ≤ x.logit)
    ∧ (sortDescBy (fun td => td.logit) c).Perm c
    ∧ (∀ v : ℚ,
        (sortDescBy (fun td => td.logit) c).filter (fun td => decide (td.logit = v))
          = c.filter (fun td => decide (td.logit = v))) := by
  refine ⟨?_, ?_, sortDescBy_perm _ c, fun v => sortDescBy_filter _ v c⟩
  · simp only [llama_constraint_top_k_impl]
    rw [List.length_take, sortDescBy_length]
  · intro x hx y hy
    simp only [llama_constraint_top_k_impl] at hx
    have hpw := sortDescBy_pairwise (fun td => td.logit) c
    rw [← List.take_append_drop k (sortDescBy (fun td => td.logit) c)] at hpw
    exact (List.pairwise_append.mp hpw).2.2 x hx y hy

/-- Concrete witness for claim C4. -/
theorem top_k_spec_witness :
    (llama_constraint_top_k_impl
        [⟨10, 1, 0⟩, ⟨11, 3, 0⟩, ⟨12, 1, 0⟩] 2).length
      = min 2 ([⟨10, 1, 0⟩, ⟨11, 3, 0⟩, ⟨12, 1, 0⟩] :
          List llama_token_data).length :=
  (top_k_spec [⟨10, 1, 0⟩, ⟨11, 3, 0⟩, ⟨12, 1, 0⟩] 2).1

/--
Claim C7: stochastic sampling is reproducible: two runs of repeated sample
calls from equal RNG states over the same fixed candidate set return the
identical token sequence.
-/
theorem sample_dist_deterministic (no : NumericOracle)
    (c : List llama_token_data) (r₁ r₂ : Nat) (n : Nat) (h : r₁ = r₂) :
    llama_sampler_sample_seq no c r₁ n = llama_sampler_sample_seq no c r₂ n := by
  subst h
  rfl

/-- Concrete witness for claim C7. -/
theorem sample_dist_deterministic_witness :
    (7 : Nat) = 7
    ∧ llama_sampler_sample_seq ⟨fun _ => 1, fun _ => 0, fun _ _ => 1⟩
        [⟨0, 1, 0⟩, ⟨1, 0, 0⟩] 7 3
      = llama_sampler_sample_seq ⟨fun _ => 1, fun _ => 0, fun _ _ => 1⟩
        [⟨0, 1, 0⟩, ⟨1, 0, 0⟩] 7 3 :=
  ⟨rfl, sample_dist_deterministic ⟨fun _ => 1, fun _ => 0, fun _ _ => 1⟩
    [⟨0, 1, 0⟩, ⟨1, 0, 0⟩] 7 7 3 rfl⟩

/--
Claim C8: saving a slot's cache_tokens and generated_tokens and restoring the
blob into a fresh slot reproduces the identical token sequences, and the
n_tokens and n_bytes reported by the restore equal those reported by the save
exactly (the restore result record differs from the save record only in its
direction flag).
-/
theorem slot_save_restore_roundtrip (id_slot : Nat) (filename : String)
    (cache_tokens generated_tokens : List Nat) :
    slot_restore id_slot filename
        (slot_save id_slot filename cache_tokens generated_tokens).1
      = some ((cache_tokens, generated_tokens),
          { (slot_save id_slot filename cache_tokens generated_tokens).2 with
              is_save := false }) := by
  simp [slot_save, slot_restore, List.take_left, List.drop_left]

theorem slotCancelHit_none (target : Nat) (sl : ServerSlot)
    (h : sl.id_task = none) : slotCancelHit target sl = false := by
  simp [slotCancelHit, h]

theorem processControlTask_slot (st : SchedState) (t : ServerTask) (i : Nat)
    (sl : ServerSlot) (hsl : st.slots[i]? = some sl) :
    ∃ sl', (processControlTask st t).slots[i]? = some sl'
      ∧ (sl' = sl
         ∨ (t.ttype = server_task_type.SERVER_TASK_TYPE_CANCEL
            ∧ slotCancelHit t.id_target sl = true
            ∧ sl' = { sl with state := slot_state.SLOT_STATE_IDLE, id_task := none })) := by
  cases ht : t.ttype with
  | SERVER_TASK_TYPE_CANCEL =>
      simp only [processControlTask, ht]
      by_cases hany : st.slots.any (slotCancelHit t.id_target) = true
      · rw [if_pos hany]
        by_cases hhit : slotCancelHit t.id_target sl = true
        · refine ⟨{ sl with state := slot_state.SLOT_STATE_IDLE, id_task := none },
            ?_, Or.inr ⟨by trivial, hhit, rfl⟩⟩
          simp [List.getElem?_map, hsl, hhit]
        · refine ⟨sl, ?_, Or.inl rfl⟩
          simp [List.getElem?_map, hsl, hhit]
      · rw [if_neg hany]
        exact ⟨sl, hsl, Or.inl rfl⟩
  | SERVER_TASK_TYPE_METRICS =>
      simp only [processControlTask, ht]
      exact ⟨sl, hsl, Or.inl rfl⟩
  | SERVER_TASK_TYPE_INFERENCE =>
      simp only [processControlTask, ht]
      exact ⟨sl, hsl, Or.inl rfl⟩
  | SERVER_TASK_TYPE_NEXT_RESPONSE =>
      simp only [processControlTask, ht]
      exact ⟨sl, hsl, Or.inl rfl⟩
  | SERVER_TASK_TYPE_SLOT_SAVE =>
      simp only [processControlTask, ht]
      exact ⟨sl, hsl, Or.inl rfl⟩
  | SERVER_TASK_TYPE_SLOT_RESTORE =>
      simp only [processControlTask, ht]
      exact ⟨sl, hsl, Or.inl rfl⟩
  | SERVER_TASK_TYPE_SLOT_ERASE =>
      simp only [processControlTask, ht]
      exact ⟨sl, hsl, Or.inl rfl⟩
  | SERVER_TASK_TYPE_SET_LORA =>
      simp only [processControlTask, ht]
      exact ⟨sl, hsl, Or.inl rfl⟩

theorem ctrl_foldl_slot (ts : List ServerTask) :
    ∀ (st : SchedState) (i : Nat) (sl : ServerSlot), st.slots[i]? = some sl →
      ∃ sl', (ts.foldl processControlTask st).slots[i]? = some sl'
        ∧ (sl' = sl
           ∨ ((∃ t ∈ ts, t.ttype = server_task_type.SERVER_TASK_TYPE_CANCEL
                ∧ slotCancelHit t.id_target sl = true)
              ∧ sl'.state = slot_state.SLOT_STATE_IDLE ∧ sl'.id_task = none)) := by
  induction ts with
  | nil =>
      intro st i sl hsl
      exact ⟨sl, hsl, Or.inl rfl⟩
  | cons t ts ih =>
      intro st i sl hsl
      obtain ⟨sl1, hsl1, hcase⟩ := processControlTask_slot st t i sl hsl
      rcases hcase with hsame | ⟨htc, hhit, hval⟩
      · subst hsame
        obtain ⟨sl', hsl', hcase'⟩ := ih (processControlTask st t) i sl1 hsl1
        refine ⟨sl', by simpa using hsl', ?_⟩
        rcases hcase' with h | ⟨⟨t', ht', hc'⟩, hrest⟩
        · exact Or.inl h
        · exact Or.inr ⟨⟨t', List.mem_cons_of_mem t ht', hc'⟩, hrest⟩
      · subst hval
        obtain ⟨sl', hsl', hcase'⟩ := ih (processControlTask st t) i _ hsl1
        refine ⟨sl', by simpa using hsl', ?_⟩
        rcases hcase' with h | ⟨⟨t', _, hc'⟩, hrest⟩
        · subst h
          exact Or.inr ⟨⟨t, List.mem_cons_self t ts, htc, hhit⟩, rfl, rfl⟩
        · rw [slotCancelHit_none t'.id_target _ rfl] at hc'
          exact absurd hc' (by simp)

theorem launch_slot_slot (t : ServerTask) :
    ∀ (slots : List ServerSlot) (i : Nat) (sl : ServerSlot), slots[i]? = some sl →
      ∃ sl', (launch_slot_with_task t slots).1[i]? = some sl'
        ∧ (sl' = sl
           ∨ (sl.state = slot_state.SLOT_STATE_IDLE
              ∧ sl' = { sl with state := slot_state.SLOT_STATE_STARTED, id_task := some t.id, n_prompt_remaining := t.prompt.length, n_decoded := 0, generated := [] })) := by
  intro slots
  induction slots with
  | nil =>
      intro i sl hsl
      simp at hsl
  | cons a rest ih =>
      intro i sl hsl
      by_cases ha : a.state = slot_state.SLOT_STATE_IDLE
      · simp only [launch_slot_with_task, if_pos ha]
        cases i with
        | zero =>
            have haeq : a = sl := by simpa using hsl
            subst haeq
            exact ⟨_, by simp, Or.inr ⟨ha, rfl⟩⟩
        | succ n =>
            have hr : rest[n]? = some sl := by simpa using hsl
            exact ⟨sl, by simpa using hr, Or.inl rfl⟩
      · simp only [launch_slot_with_task, if_neg ha]
        cases i with
        | zero =>
            have haeq : a = sl := by simpa using hsl
            subst haeq
            exact ⟨a, by simp, Or.inl rfl⟩
        | succ n =>
            have hr : rest[n]? = some sl := by simpa using hsl
            obtain ⟨sl', h1, h2⟩ := ih n sl hr
            exact ⟨sl', by simpa using h1, h2⟩

theorem inf_foldl_slot (ts : List ServerTask) :
    ∀ (st : SchedState) (i : Nat) (sl : ServerSlot), st.slots[i]? = some sl →
      ∃ sl', (ts.foldl processInferenceTask st).slots[i]? = some sl'
        ∧ (sl' = sl
           ∨ (sl.state = slot_state.SLOT_STATE_IDLE
              ∧ sl'.state = slot_state.SLOT_STATE_STARTED
              ∧ ∃ t ∈ ts, sl'.id_task = some t.id)) := by
  induction ts with
  | nil =>
      intro st i sl hsl
      exact ⟨sl, hsl, Or.inl rfl⟩
  | cons t ts ih =>
      intro st i sl hsl
      rw [List.foldl_cons]
      by_cases hr : (launch_slot_with_task t st.slots).2 = true
      · have hslots : (processInferenceTask st t).slots
            = (launch_slot_with_task t st.slots).1 := by
          simp [processInferenceTask, hr]
        obtain ⟨sl1, h1, hcase⟩ := launch_slot_slot t st.slots i sl hsl
        rcases hcase with hsame | ⟨hidle, hassigned⟩
        · subst hsame
          obtain ⟨sl', h2, hcase'⟩ := ih (processInferenceTask st t) i sl1
            (by rw [hslots]; exact h1)
          refine ⟨sl', h2, ?_⟩
          rcases hcase' with h | ⟨ha, hb, t', ht', hc⟩
          · exact Or.inl h
          · exact Or.inr ⟨ha, hb, t', List.mem_cons_of_mem t ht', hc⟩
        · subst hassigned
          obtain ⟨sl', h2, hcase'⟩ := ih (processInferenceTask st t) i _
            (by rw [hslots]; exact h1)
          refine ⟨sl', h2, ?_⟩
          rcases hcase' with h | ⟨ha, _, _⟩
          · subst h
            exact Or.inr ⟨hidle, rfl, t, List.mem_cons_self t ts, rfl⟩
          · exact absurd ha (by simp)
      · have hslots : (processInferenceTask st t).slots = st.slots := by
          simp [processInferenceTask, hr]
        obtain ⟨sl', h2, hcase'⟩ := ih (processInferenceTask st t) i sl
          (by rw [hslots]; exact hsl)
        refine ⟨sl', h2, ?_⟩
        rcases hcase' with h | ⟨ha, hb, t', ht', hc⟩
        · exact Or.inl h
        · exact Or.inr ⟨ha, hb, t', List.mem_cons_of_mem t ht', hc⟩

theorem promptStartSlot_step (c : Bool) (sl : ServerSlot) :
    slot_step_ok c sl.state (promptStartSlot sl).state := by
  unfold promptStartSlot slot_step_ok
  by_cases h : sl.state = slot_state.SLOT_STATE_STARTED
  · rw [if_pos h]
    exact Or.inr (Or.inl (by rw [h]; rfl))
  · rw [if_neg h]
    exact Or.inl rfl

theorem promptDoneSlot_step (c : Bool) (sl : ServerSlot) :
    slot_step_ok c sl.state (promptDoneSlot sl).state := by
  unfold promptDoneSlot slot_step_ok
  by_cases h : sl.state = slot_state.SLOT_STATE_PROCESSING_PROMPT
      ∧ sl.n_prompt_remaining = 0
  · rw [if_pos h]
    exact Or.inr (Or.inl (by rw [h.1]; rfl))
  · rw [if_neg h]
    exact Or.inl rfl

theorem genBeginSlot_step (c : Bool) (sl : ServerSlot) :
    slot_step_ok c sl.state (genBeginSlot sl).state := by
  unfold genBeginSlot slot_step_ok
  by_cases h : sl.state = slot_state.SLOT_STATE_DONE_PROMPT
  · rw [if_pos h]
    exact Or.inr (Or.inl (by rw [h]; rfl))
  · rw [if_neg h]
    exact Or.inl rfl

theorem genStepSlot_state (nextTok : Nat → Nat → Nat) (sl : ServerSlot) :
    (genStepSlot nextTok sl).state = sl.state := by
  unfold genStepSlot
  split <;> rfl

theorem stopCheckSlot_step (c : Bool) (eos : Nat) (sl : ServerSlot) :
    slot_step_ok c sl.state (stopCheckSlot eos sl).state := by
  unfold stopCheckSlot slot_step_ok
  by_cases h : sl.state = slot_state.SLOT_STATE_GENERATING
      ∧ slotShouldStop eos sl = true
  · rw [if_pos h]
    exact Or.inr (Or.inl (by rw [h.1]; rfl))
  · rw [if_neg h]
    exact Or.inl rfl

/--
Claim C1: across one scheduler iteration, a slot's state field only changes
along the directed lifecycle path Idle, Started, ProcessingPrompt,
DonePrompt, Generating, back to Idle, one step at a time and never skipping
a state, except that a Cancel task targeting the slot may force it from any
state directly back to Idle.
-/
theorem slot_state_path (nextTok : Nat → Nat → Nat) (eos : Nat)
    (tasks : List ServerTask) (st : SchedState) (i : Nat) (sl : ServerSlot)
    (hsl : st.slots[i]? = some sl) :
    (schedIterTrace nextTok eos tasks st i).Chain'
      (slot_step_ok (cancelTargets tasks sl)) := by
  obtain ⟨sl2, h2, hc2⟩ := ctrl_foldl_slot
    (tasks.filter (fun t => !(isInferenceTask t))) st i sl hsl
  have h2' : (sched_step2 tasks st).slots[i]? = some sl2 := h2
  obtain ⟨sl3, h3, hc3⟩ := inf_foldl_slot (tasks.filter isInferenceTask)
    (sched_step2 tasks st) i sl2 h2'
  have h3' : (sched_step3 tasks (sched_step2 tasks st)).slots[i]? = some sl3 := h3
  have h4 : (sched_prompt_start
        (sched_step3 tasks (sched_step2 tasks st))).slots[i]?
      = some (promptStartSlot sl3) := by
    simp [sched_prompt_start, List.getElem?_map, h3']
  have h5 : (sched_prompt_done (sched_prompt_start
        (sched_step3 tasks (sched_step2 tasks st)))).slots[i]?
      = some (promptDoneSlot (promptStartSlot sl3)) := by
    simp [sched_prompt_done, List.getElem?_map, h4]
  have h6 : (sched_gen_begin (sched_prompt_done (sched_prompt_start
        (sched_step3 tasks (sched_step2 tasks st))))).slots[i]?
      = some (genBeginSlot (promptDoneSlot (promptStartSlot sl3))) := by
    simp [sched_gen_begin, List.getElem?_map, h5]
  have h7 : (sched_gen_step nextTok (sched_gen_begin (sched_prompt_done
        (sched_prompt_start
          (sched_step3 tasks (sched_step2 tasks st)))))).slots[i]?
      = some (genStepSlot nextTok
          (genBeginSlot (promptDoneSlot (promptStartSlot sl3)))) := by
    simp [sched_gen_step, List.getElem?_map, h6]
  have h8 : (sched_stop_check eos (sched_gen_step nextTok (sched_gen_begin
        (sched_prompt_done (sched_prompt_start
          (sched_step3 tasks (sched_step2 tasks st))))))).slots[i]?
      = some (stopCheckSlot eos (genStepSlot nextTok
          (genBeginSlot (promptDoneSlot (promptStartSlot sl3))))) := by
    simp [sched_stop_check, List.getElem?_map, h7]
  simp only [schedIterTrace, slotStateAt, hsl, h2', h3', h4, h5, h6, h7, h8,
    List.chain'_cons, List.chain'_singleton, and_true]
  refine ⟨?_, ?_, promptStartSlot_step _ sl3, promptDoneSlot_step _ _,
    genBeginSlot_step _ _, ?_, stopCheckSlot_step _ eos _⟩
  · rcases hc2 with hsame | ⟨⟨t, htmem, htc, hhit⟩, hst, _⟩
    · exact Or.inl (by rw [hsame])
    · refine Or.inr (Or.inr ⟨?_, hst⟩)
      exact List.any_eq_true.mpr
        ⟨t, List.mem_of_mem_filter htmem, by simp [htc, hhit]⟩
  · rcases hc3 with hsame | ⟨ha, hb, _⟩
    · exact Or.inl (by rw [hsame])
    · exact Or.inr (Or.inl (by rw [hb, ha]; rfl))
  · exact Or.inl (genStepSlot_state nextTok _)

/-- Concrete witness for claim C1. -/
theorem slot_state_path_witness :
    (schedIterTrace (fun _ _ => 0) 0 []
        (SchedState.mk [ServerSlot.mk 0 slot_state.SLOT_STATE_IDLE none 0 0 0 []]
          [] []) 0).Chain'
      (slot_step_ok (cancelTargets []
        (ServerSlot.mk 0 slot_state.SLOT_STATE_IDLE none 0 0 0 []))) :=
  slot_state_path (fun _ _ => 0) 0 []
    (SchedState.mk [ServerSlot.mk 0 slot_state.SLOT_STATE_IDLE none 0 0 0 []] [] [])
    0 (ServerSlot.mk 0 slot_state.SLOT_STATE_IDLE none 0 0 0 []) rfl

theorem processControlTask_cancel (st : SchedState) (t : ServerTask) (i : Nat)
    (sl : ServerSlot) (tid : Nat)
    (hsl : st.slots[i]? = some sl)
    (htask : sl.id_task = some tid)
    (hactive : sl.state ≠ slot_state.SLOT_STATE_IDLE)
    (htc : t.ttype = server_task_type.SERVER_TASK_TYPE_CANCEL)
    (htarget : t.id_target = tid) :
    (processControlTask st t).slots[i]?
        = some { sl with state := slot_state.SLOT_STATE_IDLE, id_task := none }
      ∧ ServerResult.cancelledRes tid ∈ (processControlTask st t).results := by
  have hhit : slotCancelHit t.id_target sl = true := by
    simp [slotCancelHit, htarget, htask, hactive]
  have hany : st.slots.any (slotCancelHit t.id_target) = true :=
    List.any_eq_true.mpr ⟨sl, List.getElem?_mem hsl, hhit⟩
  simp only [processControlTask, htc]
  rw [if_pos hany]
  constructor
  · simp [List.getElem?_map, hsl, hhit]
  · simp [htarget]

theorem processControlTask_results_mono (st : SchedState) (t : ServerTask)
    (r : ServerResult) (h : r ∈ st.results) :
    r ∈ (processControlTask st t).results := by
  cases ht : t.ttype with
  | SERVER_TASK_TYPE_CANCEL =>
      simp only [processControlTask, ht]
      split
      · exact List.mem_append_left _ h
      · exact List.mem_append_left _ h
  | SERVER_TASK_TYPE_METRICS =>
      simp only [processControlTask, ht]
      exact List.mem_append_left _ h
  | SERVER_TASK_TYPE_INFERENCE => simpa only [processControlTask, ht] using h
  | SERVER_TASK_TYPE_NEXT_RESPONSE => simpa only [processControlTask, ht] using h
  | SERVER_TASK_TYPE_SLOT_SAVE => simpa only [processControlTask, ht] using h
  | SERVER_TASK_TYPE_SLOT_RESTORE => simpa only [processControlTask, ht] using h
  | SERVER_TASK_TYPE_SLOT_ERASE => simpa only [processControlTask, ht] using h
  | SERVER_TASK_TYPE_SET_LORA => simpa only [processControlTask, ht] using h

theorem ctrl_foldl_results_mono (ts : List ServerTask) :
    ∀ (st : SchedState) (r : ServerResult), r ∈ st.results →
      r ∈ (ts.foldl processControlTask st).results := by
  induction ts with
  | nil => intro st r h; exact h
  | cons t ts ih =>
      intro st r h
      rw [List.foldl_cons]
      exact ih _ r (processControlTask_results_mono st t r h)

theorem ctrl_foldl_none (ts : List ServerTask) (st : SchedState) (i : Nat)
    (sl : ServerSlot) (hsl : st.slots[i]? = some sl)
    (hnone : sl.id_task = none) :
    (ts.foldl processControlTask st).slots[i]? = some sl := by
  obtain ⟨sl', h', hc⟩ := ctrl_foldl_slot ts st i sl hsl
  rcases hc with h | ⟨⟨t, _, _, hhit⟩, _, _⟩
  · rw [h] at h'
    exact h'
  · rw [slotCancelHit_none _ _ hnone] at hhit
    exact absurd hhit (by simp)

theorem ctrl_foldl_cancel (ts : List ServerTask) :
    ∀ (st : SchedState) (i : Nat) (sl : ServerSlot) (tid : Nat),
      st.slots[i]? = some sl → sl.id_task = some tid →
      sl.state ≠ slot_state.SLOT_STATE_IDLE →
      (∃ t ∈ ts, t.ttype = server_task_type.SERVER_TASK_TYPE_CANCEL
        ∧ t.id_target = tid) →
      (ts.foldl processControlTask st).slots[i]?
          = some { sl with state := slot_state.SLOT_STATE_IDLE, id_task := none }
        ∧ ServerResult.cancelledRes tid
            ∈ (ts.foldl processControlTask st).results := by
  induction ts with
  | nil =>
      intro st i sl tid _ _ _ hex
      obtain ⟨t, hmem, _⟩ := hex
      simp at hmem
  | cons t ts ih =>
      intro st i sl tid hsl htask hactive hex
      rw [List.foldl_cons]
      by_cases hct : t.ttype = server_task_type.SERVER_TASK_TYPE_CANCEL
          ∧ t.id_target = tid
      · obtain ⟨hs1, hr1⟩ :=
          processControlTask_cancel st t i sl tid hsl htask hactive hct.1 hct.2
        exact ⟨ctrl_foldl_none ts _ i _ hs1 rfl,
          ctrl_foldl_results_mono ts _ _ hr1⟩
      · obtain ⟨sl1, h1, hcase⟩ := processControlTask_slot st t i sl hsl
        have hsame : sl1 = sl := by
          rcases hcase with h | ⟨htc, hhit, _⟩
          · exact h
          · exfalso
            apply hct
            refine ⟨htc, ?_⟩
            simp only [slotCancelHit, decide_eq_true_eq] at hhit
            rw [htask] at hhit
            exact (Option.some.inj hhit.1).symm
        rw [hsame] at h1
        have hex' : ∃ t' ∈ ts,
            t'.ttype = server_task_type.SERVER_TASK_TYPE_CANCEL
              ∧ t'.id_target = tid := by
          obtain ⟨t0, hmem0, h0⟩ := hex
          rcases List.mem_cons.mp hmem0 with heq | hmem0'
          · exact absurd (heq ▸ h0) hct
          · exact ⟨t0, hmem0', h0⟩
        exact ih _ i sl tid h1 htask hactive hex'

theorem processControlTask_countP (st : SchedState) (t : ServerTask) (tid : Nat) :
    ((processControlTask st t).results).countP (ServerResult.isPartialFor tid)
      = st.results.countP (ServerResult.isPartialFor tid) := by
  cases ht : t.ttype with
  | SERVER_TASK_TYPE_CANCEL =>
      simp only [processControlTask, ht]
      split
      · simp [List.countP_append, List.countP_cons, ServerResult.isPartialFor]
      · simp [List.countP_append, List.countP_cons, ServerResult.isPartialFor]
  | SERVER_TASK_TYPE_METRICS =>
      simp only [processControlTask, ht]
      simp [List.countP_append, List.countP_cons, ServerResult.isPartialFor]
  | SERVER_TASK_TYPE_INFERENCE => simp only [processControlTask, ht]
  | SERVER_TASK_TYPE_NEXT_RESPONSE => simp only [processControlTask, ht]
  | SERVER_TASK_TYPE_SLOT_SAVE => simp only [processControlTask, ht]
  | SERVER_TASK_TYPE_SLOT_RESTORE => simp only [processControlTask, ht]
  | SERVER_TASK_TYPE_SLOT_ERASE => simp only [processControlTask, ht]
  | SERVER_TASK_TYPE_SET_LORA => simp only [processControlTask, ht]

theorem ctrl_foldl_countP (ts : List ServerTask) :
    ∀ (st : SchedState) (tid : Nat),
      ((ts.foldl processControlTask st).results).countP
          (ServerResult.isPartialFor tid)
        = st.results.countP (ServerResult.isPartialFor tid) := by
  induction ts with
  | nil => intro st tid; rfl
  | cons t ts ih =>
      intro st tid
      rw [List.foldl_cons, ih, processControlTask_countP]

theorem processInferenceTask_results (st : SchedState) (t : ServerTask) :
    (processInferenceTask st t).results = st.results := by
  simp only [processInferenceTask]
  split <;> rfl

theorem inf_foldl_results (ts : List ServerTask) :
    ∀ (st : SchedState),
      (ts.foldl processInferenceTask st).results = st.results := by
  induction ts with
  | nil => intro st; rfl
  | cons t ts ih =>
      intro st
      rw [List.foldl_cons, ih, processInferenceTask_results]

theorem processControlTask_length (st : SchedState) (t : ServerTask) :
    (processControlTask st t).slots.length = st.slots.length := by
  cases ht : t.ttype with
  | SERVER_TASK_TYPE_CANCEL =>
      simp only [processControlTask, ht]
      split <;> simp
  | SERVER_TASK_TYPE_METRICS => simp only [processControlTask, ht]
  | SERVER_TASK_TYPE_INFERENCE => simp only [processControlTask, ht]
  | SERVER_TASK_TYPE_NEXT_RESPONSE => simp only [processControlTask, ht]
  | SERVER_TASK_TYPE_SLOT_SAVE => simp only [processControlTask, ht]
  | SERVER_TASK_TYPE_SLOT_RESTORE => simp only [processControlTask, ht]
  | SERVER_TASK_TYPE_SLOT_ERASE => simp only [processControlTask, ht]
  | SERVER_TASK_TYPE_SET_LORA => simp only [processControlTask, ht]

theorem ctrl_foldl_length (ts : List ServerTask) :
    ∀ (st : SchedState),
      (ts.foldl processControlTask st).slots.length = st.slots.length := by
  induction ts with
  | nil => intro st; rfl
  | cons t ts ih =>
      intro st
      rw [List.foldl_cons, ih, processControlTask_length]

theorem launch_slot_length (t : ServerTask) :
    ∀ (slots : List ServerSlot),
      (launch_slot_with_task t slots).1.length = slots.length := by
  intro slots
  induction slots with
  | nil => rfl
  | cons a rest ih =>
      by_cases ha : a.state = slot_state.SLOT_STATE_IDLE
      · simp [launch_slot_with_task, ha]
      · simp [launch_slot_with_task, ha, ih]

theorem processInferenceTask_length (st : SchedState) (t : ServerTask) :
    (processInferenceTask st t).slots.length = st.slots.length := by
  simp only [processInferenceTask]
  split
  · exact launch_slot_length t st.slots
  · rfl

theorem inf_foldl_length (ts : List ServerTask) :
    ∀ (st : SchedState),
      (ts.foldl processInferenceTask st).slots.length = st.slots.length := by
  induction ts with
  | nil => intro st; rfl
  | cons t ts ih =>
      intro st
      rw [List.foldl_cons, ih, processInferenceTask_length]

theorem promptStartSlot_id_task (sl : ServerSlot) :
    (promptStartSlot sl).id_task = sl.id_task := by
  unfold promptStartSlot
  split <;> rfl

theorem promptDoneSlot_id_task (sl : ServerSlot) :
    (promptDoneSlot sl).id_task = sl.id_task := by
  unfold promptDoneSlot
  split <;> rfl

theorem genBeginSlot_id_task (sl : ServerSlot) :
    (genBeginSlot sl).id_task = sl.id_task := by
  unfold genBeginSlot
  split <;> rfl

theorem sched_no_owner (tasks : List ServerTask) (st : SchedState) (i : Nat)
    (sl : ServerSlot) (tid : Nat)
    (hsl : st.slots[i]? = some sl)
    (hactive : sl.state ≠ slot_state.SLOT_STATE_IDLE)
    (htask : sl.id_task = some tid)
    (hcancel : ∃ t ∈ tasks,
      t.ttype = server_task_type.SERVER_TASK_TYPE_CANCEL ∧ t.id_target = tid)
    (hfresh : ∀ t ∈ tasks,
      t.ttype = server_task_type.SERVER_TASK_TYPE_INFERENCE → t.id ≠ tid)
    (huniq : ∀ (j : Nat) (sl' : ServerSlot),
      st.slots[j]? = some sl' → sl'.id_task = some tid → j = i) :
    ∀ (j : Nat) (sl' : ServerSlot),
      (sched_step3 tasks (sched_step2 tasks st)).slots[j]? = some sl' →
      sl'.id_task ≠ some tid := by
  intro j sl' h' heq
  cases hj : st.slots[j]? with
  | none =>
      have hlen : (sched_step3 tasks (sched_step2 tasks st)).slots.length
          = st.slots.length := by
        show ((tasks.filter isInferenceTask).foldl processInferenceTask _).slots.length = _
        rw [inf_foldl_length]
        exact ctrl_foldl_length _ st
      have h1 : j < st.slots.length := by
        rcases List.getElem?_eq_some.mp h' with ⟨hlt, _⟩
        rw [hlen] at hlt
        exact hlt
      have h2 := List.getElem?_eq_none_iff.mp hj
      omega
  | some sl0 =>
      obtain ⟨sl2j, h2j, hc2⟩ := ctrl_foldl_slot
        (tasks.filter (fun t => !(isInferenceTask t))) st j sl0 hj
      obtain ⟨sl3j, h3j, hc3⟩ := inf_foldl_slot (tasks.filter isInferenceTask)
        (sched_step2 tasks st) j sl2j h2j
      have h3j' : (sched_step3 tasks (sched_step2 tasks st)).slots[j]?
          = some sl3j := h3j
      rw [h'] at h3j'
      have hsleq : sl' = sl3j := Option.some.inj h3j'
      rcases hc3 with h33 | ⟨hidle2, hstarted, t, htmem, hid3⟩
      · rcases hc2 with h22 | ⟨_, _, hidnone⟩
        · have heq0 : sl0.id_task = some tid := by
            rw [← h22, ← h33, ← hsleq]
            exact heq
          have hji : j = i := huniq j sl0 hj heq0
          rw [hji] at hj h2j
          have hsl0 : sl0 = sl := by
            rw [hj] at hsl
            exact Option.some.inj hsl
          have hexF : ∃ t ∈ tasks.filter (fun t => !(isInferenceTask t)),
              t.ttype = server_task_type.SERVER_TASK_TYPE_CANCEL
                ∧ t.id_target = tid := by
            obtain ⟨t, hmem, htc, htg⟩ := hcancel
            exact ⟨t, List.mem_filter.mpr ⟨hmem, by simp [isInferenceTask, htc]⟩,
              htc, htg⟩
          obtain ⟨h2slot, _⟩ :=
            ctrl_foldl_cancel (tasks.filter (fun t => !(isInferenceTask t)))
              st i sl tid hsl htask hactive hexF
          rw [h2slot] at h2j
          have hC := Option.some.inj h2j
          have hidn : sl2j.id_task = none := by
            rw [← hC]
          rw [hsleq, h33, hidn] at heq
          exact absurd heq (by simp)
        · rw [hsleq, h33, hidnone] at heq
          exact absurd heq (by simp)
      · rw [hsleq, hid3] at heq
        have hideq : t.id = tid := Option.some.inj heq
        have htinf := List.mem_filter.mp htmem
        exact hfresh t htinf.1
          (by simpa [isInferenceTask] using htinf.2) hideq

theorem genEmit_countP_zero (nextTok : Nat → Nat → Nat) (tid : Nat)
    (slots : List ServerSlot)
    (h : ∀ sl ∈ slots, sl.id_task ≠ some tid) :
    (slots.filterMap (genEmit nextTok)).countP (ServerResult.isPartialFor tid)
      = 0 := by
  rw [List.countP_eq_zero]
  intro r hr
  obtain ⟨sl, hmem, hf⟩ := List.mem_filterMap.mp hr
  unfold genEmit at hf
  by_cases hst : sl.state = slot_state.SLOT_STATE_GENERATING
  · rw [if_pos hst] at hf
    cases hid : sl.id_task with
    | none =>
        rw [hid] at hf
        simp at hf
    | some t' =>
        rw [hid] at hf
        have hr' : r = ServerResult.partialRes t' (nextTok sl.id sl.n_decoded) :=
          (Option.some.inj hf).symm
        subst hr'
        simp only [ServerResult.isPartialFor, decide_eq_true_eq]
        intro hteq
        exact h sl hmem (by rw [hid, hteq])
  · rw [if_neg hst] at hf
    simp at hf

theorem stopEmit_countP_zero (eos tid : Nat) (slots : List ServerSlot) :
    (slots.filterMap (stopEmit eos)).countP (ServerResult.isPartialFor tid)
      = 0 := by
  rw [List.countP_eq_zero]
  intro r hr
  obtain ⟨sl, hmem, hf⟩ := List.mem_filterMap.mp hr
  unfold stopEmit at hf
  by_cases hst : sl.state = slot_state.SLOT_STATE_GENERATING
      ∧ slotShouldStop eos sl = true
  · rw [if_pos hst] at hf
    cases hid : sl.id_task with
    | none =>
        rw [hid] at hf
        simp at hf
    | some t' =>
        rw [hid] at hf
        have hr' : r = ServerResult.finalRes t'
            (if sl.generated.getLast? = some eos then stop_type.STOP_TYPE_EOS
             else stop_type.STOP_TYPE_LIMIT) :=
          (Option.some.inj hf).symm
        subst hr'
        simp [ServerResult.isPartialFor]
  · rw [if_neg hst] at hf
    simp at hf

/--
Claim C2: when a Cancel task targeting an actively processed task is drained
in an iteration, the targeted slot is Idle and free (reusable) immediately
after the control-task step, the task's sink receives a terminal cancellation
Result within that iteration, and no Partial Result for the task is produced
in the iteration (the slot stops producing tokens at once). The hypotheses
state the scheduler invariants: task ids are unique (no drained Inference
task reuses the cancelled id) and at most one slot owns the task.
-/
theorem cancel_guarantees (nextTok : Nat → Nat → Nat) (eos : Nat)
    (tasks : List ServerTask) (st : SchedState) (i : Nat) (sl : ServerSlot)
    (tid : Nat)
    (hsl : st.slots[i]? = some sl)
    (hactive : sl.state ≠ slot_state.SLOT_STATE_IDLE)
    (htask : sl.id_task = some tid)
    (hcancel : ∃ t ∈ tasks,
      t.ttype = server_task_type.SERVER_TASK_TYPE_CANCEL ∧ t.id_target = tid)
    (hfresh : ∀ t ∈ tasks,
      t.ttype = server_task_type.SERVER_TASK_TYPE_INFERENCE → t.id ≠ tid)
    (huniq : ∀ (j : Nat) (sl' : ServerSlot),
      st.slots[j]? = some sl' → sl'.id_task = some tid → j = i) :
    ((sched_step2 tasks st).slots[i]?
        = some { sl with state := slot_state.SLOT_STATE_IDLE, id_task := none })
    ∧ ServerResult.cancelledRes tid
        ∈ (server_iteration nextTok eos tasks st).results
    ∧ (server_iteration nextTok eos tasks st).results.countP
          (ServerResult.isPartialFor tid)
        = st.results.countP (ServerResult.isPartialFor tid) := by
  have hexF : ∃ t ∈ tasks.filter (fun t => !(isInferenceTask t)),
      t.ttype = server_task_type.SERVER_TASK_TYPE_CANCEL ∧ t.id_target = tid := by
    obtain ⟨t, hmem, htc, htg⟩ := hcancel
    exact ⟨t, List.mem_filter.mpr ⟨hmem, by simp [isInferenceTask, htc]⟩, htc, htg⟩
  obtain ⟨h2slot, h2res⟩ :=
    ctrl_foldl_cancel (tasks.filter (fun t => !(isInferenceTask t)))
      st i sl tid hsl htask hactive hexF
  have hres3 : (sched_step3 tasks (sched_step2 tasks st)).results
      = (sched_step2 tasks st).results :=
    inf_foldl_results (tasks.filter isInferenceTask) (sched_step2 tasks st)
  have hresUnfold : (server_iteration nextTok eos tasks st).results
      = (sched_step3 tasks (sched_step2 tasks st)).results
        ++ (sched_gen_begin (sched_prompt_done (sched_prompt_start
              (sched_step3 tasks (sched_step2 tasks st))))).slots.filterMap
            (genEmit nextTok)
        ++ (sched_gen_step nextTok (sched_gen_begin (sched_prompt_done
              (sched_prompt_start (sched_step3 tasks
                (sched_step2 tasks st)))))).slots.filterMap (stopEmit eos) := rfl
  have hnoY : ∀ sl6 ∈ (sched_gen_begin (sched_prompt_done (sched_prompt_start
        (sched_step3 tasks (sched_step2 tasks st))))).slots,
      sl6.id_task ≠ some tid := by
    intro sl6 hmem
    obtain ⟨j, hjlt, hjget⟩ := List.getElem_of_mem hmem
    have hj : ((((sched_step3 tasks (sched_step2 tasks st)).slots.map
          promptStartSlot).map promptDoneSlot).map genBeginSlot)[j]?
        = some sl6 := List.getElem?_eq_some.mpr ⟨hjlt, hjget⟩
    rw [List.getElem?_map, List.getElem?_map, List.getElem?_map] at hj
    rcases Option.map_eq_some'.mp hj with ⟨x2, hx2, hgb⟩
    rcases Option.map_eq_some'.mp hx2 with ⟨x1, hx1, hpd⟩
    rcases Option.map_eq_some'.mp hx1 with ⟨x0, hx0, hps⟩
    have hidchain : sl6.id_task = x0.id_task := by
      rw [← hgb, genBeginSlot_id_task, ← hpd, promptDoneSlot_id_task,
        ← hps, promptStartSlot_id_task]
    rw [hidchain]
    exact sched_no_owner tasks st i sl tid hsl hactive htask hcancel hfresh
      huniq j x0 hx0
  refine ⟨h2slot, ?_, ?_⟩
  · rw [hresUnfold, hres3]
    exact List.mem_append_left _ (List.mem_append_left _ h2res)
  · rw [hresUnfold, List.countP_append, List.countP_append, hres3]
    have hc2 : ((sched_step2 tasks st).results).countP
        (ServerResult.isPartialFor tid)
        = st.results.countP (ServerResult.isPartialFor tid) :=
      ctrl_foldl_countP (tasks.filter (fun t => !(isInferenceTask t))) st tid
    rw [hc2, genEmit_countP_zero nextTok tid _ hnoY, stopEmit_countP_zero]
    omega

/-- Concrete witness for claim C2: one generating slot owned by task 5,
cancelled by a drained Cancel task. -/
theorem cancel_guarantees_witness :
    ServerResult.cancelledRes 5
      ∈ (server_iteration (fun _ _ => 0) 0
          [ServerTask.mk 7 5 server_task_type.SERVER_TASK_TYPE_CANCEL []]
          (SchedState.mk
            [ServerSlot.mk 0 slot_state.SLOT_STATE_GENERATING (some 5) 0 0 10 [1]]
            [] [])).results :=
  (cancel_guarantees (fun _ _ => 0) 0
    [ServerTask.mk 7 5 server_task_type.SERVER_TASK_TYPE_CANCEL []]
    (SchedState.mk
      [ServerSlot.mk 0 slot_state.SLOT_STATE_GENERATING (some 5) 0 0 10 [1]] [] [])
    0 (ServerSlot.mk 0 slot_state.SLOT_STATE_GENERATING (some 5) 0 0 10 [1]) 5
    rfl (by decide) rfl (by decide) (by decide)
    (by
      intro j sl' hj hid
      cases j with
      | zero => rfl
      | succ n => simp at hj)).2.1
